import Mathlib

/-!
Shallow embedding of the pyramidal OME-TIFF writer from
`bigwarp-zarr-to-ometiff.ipynb` (functions `_downsample_image`,
`_tiles_generator`, `_make_ome_metadata`, `_creator`,
`write_pyramidal_ome_tiff`), together with theorems settling the frozen
claims about it.

Modelling conventions:
- a 2-D numpy array is a `Plane α` (height, width, total pixel function;
  only indices below the bounds are meaningful);
- pixel values are `Nat` where arithmetic matters (the notebook works on
  unsigned integer dtypes); the float mean computed by skimage's
  `downscale_local_mean` followed by `.astype(img.dtype)` truncation is
  modelled as exact natural-number floor division, which agrees with the
  float computation for realistic image sizes and unsigned dtypes;
- fallible code returns `Except ErrKind`; Python `AssertionError` from the
  channel-name assert is the spec's `ChannelCountMismatch`, Python/library
  `ValueError` (zero slice step, skimage factor check) is `valueError`;
  the kind `invalidParameter` exists so that its absence can be stated;
- external library behaviour reached by the code is embedded from its
  documented semantics: numpy basic slicing `a[::s]` (zero step raises
  ValueError, negative step walks backwards from the last element),
  skimage `downscale_local_mean` (pads the trailing edge with cval=0 to a
  multiple of the factor, then averages each factor x factor block), and
  `tifffile.TiffWriter` calls are recorded as abstract trace events.
-/

namespace ZarrOme

/-- A materialized 2-D image plane (numpy array of shape (h, w)). -/
structure Plane (α : Type) where
  h : Nat
  w : Nat
  pix : Nat → Nat → α

/-- `ceilDiv a b = ⌈a / b⌉` for `b > 0`; used for `math.ceil(H / f)` and
for numpy slice lengths. -/
def ceilDiv (a b : Nat) : Nat := (a + b - 1) / b

/-- Error kinds observable from the embedded code.  `valueError` models
Python/numpy/skimage `ValueError`, `channelCountMismatch` models the
`assert len(channel_names) == img_stack.shape[0]` failure.
`invalidParameter` is the error kind the spec postulates; the embedded
code never produces it, which the theorems make explicit. -/
inductive ErrKind where
  | valueError
  | channelCountMismatch
  | invalidParameter
deriving DecidableEq, Repr

/-- Length of the numpy slice `a[::step]` of a length-`n` axis:
`ceil(n / |step|)` for nonzero step (both directions). -/
def pySliceLen (n : Nat) (step : Int) : Nat := ceilDiv n step.natAbs

/-- Source index selected by numpy `a[::step]` at result position `k`:
`step*k` for positive step, `(n-1) - |step|*k` for negative step. -/
def pyStrideIndex (n : Nat) (step : Int) (k : Nat) : Nat :=
  if 0 ≤ step then step.natAbs * k else (n - 1) - step.natAbs * k

/-- numpy 2-D strided slice `img[::step, ::step]`.  A zero step raises
`ValueError: slice step cannot be zero`. -/
def pySlice2d {α : Type} (img : Plane α) (step : Int) : Except ErrKind (Plane α) :=
  if step = 0 then .error .valueError
  else .ok { h := pySliceLen img.h step, w := pySliceLen img.w step,
             pix := fun i j => img.pix (pyStrideIndex img.h step i) (pyStrideIndex img.w step j) }

/-- Pixel of `img` at (y, x) after skimage's `cval=0` edge padding:
out-of-range positions contribute 0. -/
def paddedPix (img : Plane Nat) (y x : Nat) : Nat :=
  if y < img.h ∧ x < img.w then img.pix y x else 0

/-- skimage `downscale_local_mean(img, (f, f)).astype(img.dtype)`:
the plane is zero-padded at the bottom/right edge up to a multiple of
`f`, each `f × f` block is averaged (the divisor is always `f*f`, also
for trailing blocks that are only partially inside the image), and the
float mean is truncated back to the integer dtype. -/
def downscale_local_mean (img : Plane Nat) (f : Nat) : Plane Nat :=
  { h := ceilDiv img.h f, w := ceilDiv img.w f,
    pix := fun a b =>
      (∑ i in Finset.range f, ∑ j in Finset.range f, paddedPix img (a * f + i) (b * f + j))
        / (f * f) }

/-- Embedding of `_downsample_image(img, downsample_factor, downsample_method)`:
factor 1 returns the input unchanged; method `'box'` calls skimage
`downscale_local_mean` (whose `block_reduce` raises ValueError for
factors below 1); any other method string falls through to the
nearest-neighbour branch `img[::factor, ::factor]`. -/
def _downsample_image (img : Plane Nat) (downsample_factor : Int)
    (downsample_method : String) : Except ErrKind (Plane Nat) :=
  if downsample_factor ≠ 1 then
    if downsample_method = "box" then
      if downsample_factor < 1 then .error .valueError
      else .ok (downscale_local_mean img downsample_factor.toNat)
    else
      pySlice2d img downsample_factor
  else .ok img

/-- Height of a downsampling result (0 on error). -/
def getH : Except ErrKind (Plane Nat) → Nat
  | .ok p => p.h
  | .error _ => 0

/-- Width of a downsampling result (0 on error). -/
def getW : Except ErrKind (Plane Nat) → Nat
  | .ok p => p.w
  | .error _ => 0

/-- Pixel of a downsampling result (0 on error). -/
def getPix (r : Except ErrKind (Plane Nat)) (i j : Nat) : Nat :=
  match r with
  | .ok p => p.pix i j
  | .error _ => 0

/-- A plane holding one uniform value everywhere. -/
def uniformPlane (h w v : Nat) : Plane Nat := ⟨h, w, fun _ _ => v⟩

/-- Small concrete test plane: 2 × 2, pixel (i,j) holds 2*i+j. -/
def testPlane : Plane Nat := ⟨2, 2, fun i j => 2 * i + j⟩

lemma ceilDiv_one (a : Nat) : ceilDiv a 1 = a := by
  simp [ceilDiv]

lemma ceilDiv_pos_eq (a b : Nat) (hb : 0 < b) (ha : 0 < a) :
    ceilDiv a b = (a - 1) / b + 1 := by
  have h1 : a + b - 1 = (a - 1) + b := by omega
  rw [ceilDiv, h1, Nat.add_div_right _ hb]

lemma natCast_ne_one_of_two_le (f : Nat) (hf : 2 ≤ f) : ((f : Int) ≠ 1) := by
  intro h
  have : f = 1 := by exact_mod_cast h
  omega

/-- C4: for every plane, every factor ≥ 1 and every method string,
`_downsample_image` succeeds with output shape
(ceil(H/factor), ceil(W/factor)), and for factor = 1 it is the identity,
returning the input plane unchanged. -/
theorem C4_downsample_shape_and_identity (img : Plane Nat) (f : Nat) (m : String)
    (hf : 1 ≤ f) :
    ((_downsample_image img (f : Int) m).isOk = true
      ∧ getH (_downsample_image img (f : Int) m) = ceilDiv img.h f
      ∧ getW (_downsample_image img (f : Int) m) = ceilDiv img.w f)
    ∧ (f = 1 → _downsample_image img (f : Int) m = .ok img) := by
  rcases Nat.lt_or_ge f 2 with h1 | h2
  · have hf1 : f = 1 := by omega
    subst hf1
    constructor
    · simp [_downsample_image, getH, getW, Except.isOk, Except.toBool, ceilDiv_one]
    · intro _
      simp [_downsample_image]
  · have hne : ((f : Int) ≠ 1) := natCast_ne_one_of_two_le f h2
    have hnlt : ¬ ((f : Int) < 1) := by
      have : (2 : Int) ≤ (f : Int) := by exact_mod_cast h2
      omega
    have hfone : ¬ (f = 1) := by omega
    refine ⟨?_, fun hfeq => absurd hfeq hfone⟩
    by_cases hm : m = "box"
    · subst hm
      simp [_downsample_image, hne, hnlt, getH, getW, Except.isOk, Except.toBool,
        downscale_local_mean, Int.toNat_natCast]
    · have hstep : ((f : Int) ≠ 0) := by
        have : (2 : Int) ≤ (f : Int) := by exact_mod_cast h2
        omega
      simp [_downsample_image, hne, hm, pySlice2d, hstep, getH, getW,
        Except.isOk, Except.toBool, pySliceLen, Int.natAbs_ofNat]

/-- Witness for C4 at the concrete plane `testPlane` and factors 1 and 2. -/
theorem C4_downsample_shape_and_identity_witness :
    (1 : Nat) ≤ 1 ∧ (1 : Nat) ≤ 2
    ∧ _downsample_image testPlane (1 : Int) "box" = .ok testPlane
    ∧ getH (_downsample_image testPlane (2 : Int) "nearest neighbor") = 1
    ∧ getW (_downsample_image testPlane (2 : Int) "nearest neighbor") = 1 := by
  refine ⟨by decide, by decide, ?_, ?_, ?_⟩
  · exact (C4_downsample_shape_and_identity testPlane 1 "box" (by decide)).2 rfl
  · exact ((C4_downsample_shape_and_identity testPlane 2 "nearest neighbor"
      (by decide)).1.2.1).trans (by decide)
  · exact ((C4_downsample_shape_and_identity testPlane 2 "nearest neighbor"
      (by decide)).1.2.2).trans (by decide)

/-- C5 counterexample: with the nearest-neighbour method and factor −1,
`_downsample_image` does not fail at all — it succeeds and returns the
stride-reversed plane (pixel (0,0) of the result is pixel (1,1) = 3 of
`testPlane`), contradicting the claim that every factor < 1 fails with
an InvalidParameter error. -/
theorem C5_counterexample :
    (_downsample_image testPlane (-1 : Int) "nearest neighbor").isOk = true
    ∧ getPix (_downsample_image testPlane (-1 : Int) "nearest neighbor") 0 0 = 3 := by
  constructor <;> rfl

/-- C5 amended: `_downsample_image` performs no factor validation and
never raises InvalidParameter.  For factor < 1: factor 0 fails with the
slicing/library ValueError; the box method fails with skimage's
ValueError; any other method with a negative factor silently succeeds
(numpy negative-stride slicing). -/
theorem C5_factor_below_one (img : Plane Nat) (m : String) (f : Int) (hf : f < 1) :
    (f = 0 → _downsample_image img f m = .error .valueError)
    ∧ (m = "box" → _downsample_image img f m = .error .valueError)
    ∧ (m ≠ "box" → f < 0 → (_downsample_image img f m).isOk = true)
    ∧ _downsample_image img f m ≠ .error .invalidParameter := by
  by_cases hm : m = "box"
  · subst hm
    by_cases h0 : f = 0
    · subst h0
      refine ⟨fun _ => ?_, fun _ => ?_, fun hc => absurd rfl hc, ?_⟩ <;>
        simp [_downsample_image]
    · have hne : f ≠ 1 := by omega
      refine ⟨fun hc => absurd hc h0, fun _ => ?_, fun hc => absurd rfl hc, ?_⟩ <;>
        simp [_downsample_image, hne, hf]
  · by_cases h0 : f = 0
    · subst h0
      refine ⟨fun _ => ?_, fun hc => absurd hc hm, fun _ hc => absurd hc (by omega), ?_⟩ <;>
        simp [_downsample_image, hm, pySlice2d]
    · have hne : f ≠ 1 := by omega
      refine ⟨fun hc => absurd hc h0, fun hc => absurd hc hm, fun _ _ => ?_, ?_⟩ <;>
        simp [_downsample_image, hne, hm, pySlice2d, h0, Except.isOk, Except.toBool]

/-- Witness for C5 amended at factor 0 and the box method. -/
theorem C5_factor_below_one_witness :
    ((0 : Int) < 1)
    ∧ _downsample_image testPlane (0 : Int) "box" = .error .valueError
    ∧ _downsample_image testPlane (0 : Int) "nearest neighbor" = .error .valueError := by
  refine ⟨by decide, ?_, ?_⟩
  · exact (C5_factor_below_one testPlane "box" 0 (by decide)).2.1 rfl
  · exact (C5_factor_below_one testPlane "nearest neighbor" 0 (by decide)).1 rfl

/-- C10: for every plane, every factor ≥ 2 and every method string other
than `'box'` (including misspelled or unrecognized names),
`_downsample_image` silently performs stride decimation: it succeeds,
the output shape is (ceil(H/f), ceil(W/f)), and output pixel (i, j) is
input pixel (f*i, f*j). -/
theorem C10_unrecognized_method_decimates (img : Plane Nat) (f : Nat) (m : String)
    (hf : 2 ≤ f) (hm : m ≠ "box") :
    (_downsample_image img (f : Int) m).isOk = true
    ∧ getH (_downsample_image img (f : Int) m) = ceilDiv img.h f
    ∧ getW (_downsample_image img (f : Int) m) = ceilDiv img.w f
    ∧ ∀ i j, getPix (_downsample_image img (f : Int) m) i j = img.pix (f * i) (f * j) := by
  have hne : ((f : Int) ≠ 1) := natCast_ne_one_of_two_le f hf
  have hstep : ((f : Int) ≠ 0) := by
    have : (2 : Int) ≤ (f : Int) := by exact_mod_cast hf
    omega
  have hnonneg : (0 : Int) ≤ (f : Int) := by positivity
  refine ⟨?_, ?_, ?_, ?_⟩ <;>
    simp [_downsample_image, hne, hm, pySlice2d, hstep, getH, getW, getPix,
      Except.isOk, Except.toBool, pySliceLen, Int.natAbs_ofNat, pyStrideIndex, hnonneg]

/-- Witness for C10: decimating `testPlane` by 2 with a non-box method
keeps only pixel (0,0). -/
theorem C10_unrecognized_method_decimates_witness :
    (2 : Nat) ≤ 2 ∧ ("nearest neighbor" : String) ≠ "box"
    ∧ getH (_downsample_image testPlane (2 : Int) "nearest neighbor") = 1
    ∧ getPix (_downsample_image testPlane (2 : Int) "nearest neighbor") 0 0
        = testPlane.pix 0 0 := by
  refine ⟨by decide, by decide, ?_, ?_⟩
  · exact ((C10_unrecognized_method_decimates testPlane 2 "nearest neighbor"
      (by decide) (by decide)).2.1).trans (by decide)
  · have h := (C10_unrecognized_method_decimates testPlane 2 "nearest neighbor"
      (by decide) (by decide)).2.2.2 0 0
    simpa using h

/-- C1 counterexample: a uniform 1 × 3 plane of value 4 downsampled by
factor 2 with the box method yields 1 at output pixel (0, 1), not 4:
the trailing partial block {pixel (0,2)} is averaged with three
zero-padded positions, (4+0+0+0)/4 = 1.  This refutes both the
no-zero-padding claim and uniform idempotence for arbitrary factors. -/
theorem C1_counterexample :
    (_downsample_image (uniformPlane 1 3 4) (2 : Int) "box").isOk = true
    ∧ getW (_downsample_image (uniformPlane 1 3 4) (2 : Int) "box") = 2
    ∧ getPix (_downsample_image (uniformPlane 1 3 4) (2 : Int) "box") 0 1 = 1
    ∧ (1 : Nat) ≠ 4 := by
  refine ⟨rfl, rfl, ?_, by decide⟩
  show ((∑ i in Finset.range 2, ∑ j in Finset.range 2,
      paddedPix (uniformPlane 1 3 4) (0 * 2 + i) (1 * 2 + j)) / (2 * 2) : Nat) = 1
  decide

/-- C1 amended: box downsampling zero-pads trailing partial blocks —
every output pixel is the sum of the real pixels of its factor × factor
block divided by factor², with out-of-range positions contributing 0 —
so edge averages are biased toward zero.  Uniform planes are returned
uniform whenever the factor divides both dimensions (in particular for
factor 1). -/
theorem C1_block_mean_zero_padding (img : Plane Nat) (f : Nat) :
    (∀ a b, 2 ≤ f → getPix (_downsample_image img (f : Int) "box") a b
        = (∑ i in Finset.range f, ∑ j in Finset.range f,
            (if a * f + i < img.h ∧ b * f + j < img.w
              then img.pix (a * f + i) (b * f + j) else 0)) / (f * f))
    ∧ (∀ v, (∀ i j, i < img.h → j < img.w → img.pix i j = v) →
        1 ≤ f → f ∣ img.h → f ∣ img.w →
        ∀ a b, a < img.h / f → b < img.w / f →
          getPix (_downsample_image img (f : Int) "box") a b = v) := by
  constructor
  · intro a b hf
    have hne : ((f : Int) ≠ 1) := natCast_ne_one_of_two_le f hf
    have hnlt : ¬ ((f : Int) < 1) := by
      have : (2 : Int) ≤ (f : Int) := by exact_mod_cast hf
      omega
    simp [_downsample_image, hne, hnlt, getPix, downscale_local_mean,
      Int.toNat_natCast, paddedPix]
  · intro v huni hf hdh hdw a b ha hb
    have hpos : 0 < f := hf
    have hblock : ∀ i j, i < f → j < f →
        paddedPix img (a * f + i) (b * f + j) = v := by
      intro i j hi hj
      have hrow : a * f + i < img.h := by
        obtain ⟨q, hq⟩ := hdh
        have haq : a < q := by
          have : img.h / f = q := by
            rw [hq, Nat.mul_div_cancel_left q hpos]
          omega
        calc a * f + i < a * f + f := by omega
          _ = (a + 1) * f := by ring
          _ ≤ q * f := Nat.mul_le_mul_right f (by omega)
          _ = img.h := by rw [hq, Nat.mul_comm]
      have hcol : b * f + j < img.w := by
        obtain ⟨q, hq⟩ := hdw
        have hbq : b < q := by
          have : img.w / f = q := by
            rw [hq, Nat.mul_div_cancel_left q hpos]
          omega
        calc b * f + j < b * f + f := by omega
          _ = (b + 1) * f := by ring
          _ ≤ q * f := Nat.mul_le_mul_right f (by omega)
          _ = img.w := by rw [hq, Nat.mul_comm]
      simp [paddedPix, hrow, hcol, huni _ _ hrow hcol]
    have hsum : (∑ i in Finset.range f, ∑ j in Finset.range f,
        paddedPix img (a * f + i) (b * f + j)) = f * f * v := by
      calc (∑ i in Finset.range f, ∑ j in Finset.range f,
            paddedPix img (a * f + i) (b * f + j))
          = ∑ i in Finset.range f, ∑ _j in Finset.range f, v := by
            apply Finset.sum_congr rfl
            intro i hi
            apply Finset.sum_congr rfl
            intro j hj
            exact hblock i j (Finset.mem_range.mp hi) (Finset.mem_range.mp hj)
        _ = f * (f * v) := by
            simp [Finset.sum_const, Finset.card_range, Nat.mul_assoc]
        _ = f * f * v := by ring
    have hdiv : (f * f * v) / (f * f) = v :=
      Nat.mul_div_cancel_left v (by positivity)
    rcases Nat.lt_or_ge f 2 with h1 | h2
    · have hf1 : f = 1 := by omega
      subst hf1
      have ha1 : a < img.h := by simpa using ha
      have hb1 : b < img.w := by simpa using hb
      simp [_downsample_image, getPix, huni a b ha1 hb1]
    · have hne : ((f : Int) ≠ 1) := natCast_ne_one_of_two_le f h2
      have hnlt : ¬ ((f : Int) < 1) := by
        have : (2 : Int) ≤ (f : Int) := by exact_mod_cast h2
        omega
      unfold _downsample_image
      rw [if_pos hne, if_pos rfl, if_neg hnlt]
      simp only [getPix, downscale_local_mean, Int.toNat_natCast]
      rw [hsum, hdiv]

/-- Witness for C1 amended: a uniform 2 × 2 plane of value 5, factor 2
(which divides both dimensions), keeps value 5, and the padded-sum
formula holds at the concrete edge pixel of the counterexample plane. -/
theorem C1_block_mean_zero_padding_witness :
    (1 : Nat) ≤ 2 ∧ (2 : Nat) ∣ 2
    ∧ getPix (_downsample_image (uniformPlane 2 2 5) (2 : Int) "box") 0 0 = 5
    ∧ getPix (_downsample_image (uniformPlane 1 3 4) (2 : Int) "box") 0 1
        = (∑ i in Finset.range 2, ∑ j in Finset.range 2,
            (if 0 * 2 + i < 1 ∧ 1 * 2 + j < 3 then (4 : Nat) else 0)) / (2 * 2) := by
  refine ⟨by decide, by decide, ?_, ?_⟩
  · exact (C1_block_mean_zero_padding (uniformPlane 2 2 5) 2).2 5
      (fun _ _ _ _ => rfl) (by decide) (by decide) (by decide) 0 0 (by decide) (by decide)
  · have h := (C1_block_mean_zero_padding (uniformPlane 1 3 4) 2).1 0 1 (by decide)
    simpa [uniformPlane] using h

/-- Embedding of `_creator()`. -/
def _creator : String := "zarr-ometiff"

/-- The OME metadata dictionary assembled by `_make_ome_metadata`: each
optional field models the presence/absence of the corresponding key. -/
structure OmeMetadata where
  creator : String
  physicalSizeX : Option String := none
  physicalSizeXUnit : Option String := none
  physicalSizeY : Option String := none
  physicalSizeYUnit : Option String := none
  channelNames : Option (List String) := none
deriving DecidableEq, Repr

/-- Embedding of `_make_ome_metadata(img_stack, channel_names, pixel_size_um)`.
`numChannels` is `img_stack.shape[0]`.  The calibration pair is generic in
its scalar type `α`; Python's `str(...)` is `toString`.  Python truthiness
is modelled exactly: `if pixel_size_um:` is true iff the optional pair is
supplied (a 2-tuple is always truthy), while `if channel_names:` is false
both for `None` and for an empty list.  The
`assert len(channel_names) == img_stack.shape[0]` failure is the
`channelCountMismatch` error. -/
def _make_ome_metadata {α : Type} [ToString α] (numChannels : Nat)
    (channel_names : Option (List String)) (pixel_size_um : Option (α × α)) :
    Except ErrKind OmeMetadata :=
  let md0 : OmeMetadata := { creator := _creator }
  let md1 : OmeMetadata :=
    match pixel_size_um with
    | some (pixel_size_y_um, pixel_size_x_um) =>
      { md0 with
        physicalSizeX := some (toString pixel_size_x_um)
        physicalSizeXUnit := some "µm"
        physicalSizeY := some (toString pixel_size_y_um)
        physicalSizeYUnit := some "µm" }
    | none => md0
  match channel_names with
  | some l =>
    if l.isEmpty then .ok md1
    else if l.length = numChannels then .ok { md1 with channelNames := some l }
    else .error .channelCountMismatch
  | none => .ok md1

/-- Metadata of a build result (a blank record on error; theorems that
use it also establish that the build succeeded). -/
def getMd : Except ErrKind OmeMetadata → OmeMetadata
  | .ok m => m
  | .error _ => { creator := "" }

/-- C7 counterexample: a supplied empty channel-name list with
channel_count = 3 has mismatching length (0 ≠ 3) yet the builder
succeeds without recording any channel names, refuting the claimed
"fails iff lengths differ" for every supplied sequence. -/
theorem C7_counterexample :
    (_make_ome_metadata (α := String) 3 (some []) none).isOk = true
    ∧ (getMd (_make_ome_metadata (α := String) 3 (some []) none)).channelNames = none
    ∧ ([] : List String).length ≠ 3 := by
  refine ⟨rfl, rfl, by decide⟩

/-- C7 amended: for every supplied NON-EMPTY channel-name list the
builder fails iff the list length differs from the channel count, and
the failure is `channelCountMismatch`; with equal lengths it records the
ordered association.  (A supplied empty list is treated as absent.) -/
theorem C7_channel_count_mismatch {α : Type} [ToString α] (numChannels : Nat)
    (l : List String) (cal : Option (α × α)) (hne : l ≠ []) :
    ((_make_ome_metadata numChannels (some l) cal).isOk = false ↔ l.length ≠ numChannels)
    ∧ (l.length ≠ numChannels →
        _make_ome_metadata numChannels (some l) cal = .error .channelCountMismatch)
    ∧ (l.length = numChannels →
        (getMd (_make_ome_metadata numChannels (some l) cal)).channelNames = some l) := by
  have hemp : l.isEmpty = false := by
    cases l with
    | nil => exact absurd rfl hne
    | cons a t => rfl
  by_cases hlen : l.length = numChannels
  · refine ⟨?_, fun hc => absurd hlen hc, fun _ => ?_⟩ <;>
      simp [_make_ome_metadata, hemp, hlen, getMd, Except.isOk, Except.toBool]
  · refine ⟨?_, fun _ => ?_, fun hc => absurd hc hlen⟩ <;>
      simp [_make_ome_metadata, hemp, hlen, Except.isOk, Except.toBool]

/-- Witness for C7 amended: channel_count = 3 with names ["A", "B"]
fails with channelCountMismatch; with a matching count the names are
recorded. -/
theorem C7_channel_count_mismatch_witness :
    (["A", "B"] : List String) ≠ []
    ∧ _make_ome_metadata (α := String) 3 (some ["A", "B"]) none
        = .error .channelCountMismatch
    ∧ (getMd (_make_ome_metadata (α := String) 2 (some ["A", "B"]) none)).channelNames
        = some ["A", "B"] := by
  refine ⟨by decide, ?_, ?_⟩
  · exact (C7_channel_count_mismatch (α := String) 3 ["A", "B"] none
      (by decide)).2.1 (by decide)
  · exact (C7_channel_count_mismatch (α := String) 2 ["A", "B"] none
      (by decide)).2.2 (by decide)

/-- C9: a supplied empty channel-name list is treated exactly like an
absent one by the Python truthiness check: the builder succeeds for any
channel count, records no channel-name association, and returns the same
record as with no channel_names argument. -/
theorem C9_empty_channel_names {α : Type} [ToString α] (numChannels : Nat)
    (cal : Option (α × α)) :
    _make_ome_metadata numChannels (some []) cal
      = _make_ome_metadata numChannels none cal
    ∧ (_make_ome_metadata numChannels (some []) cal).isOk = true
    ∧ (getMd (_make_ome_metadata numChannels (some []) cal)).channelNames = none := by
  rcases cal with _ | ⟨y, x⟩ <;>
    simp [_make_ome_metadata, getMd, Except.isOk, Except.toBool]

/-- Witness for C9 at channel_count 5 with a concrete calibration. -/
theorem C9_empty_channel_names_witness :
    _make_ome_metadata (α := String) 5 (some []) (some ("0.5", "0.5"))
      = _make_ome_metadata (α := String) 5 none (some ("0.5", "0.5"))
    ∧ (_make_ome_metadata (α := String) 5 (some []) (some ("0.5", "0.5"))).isOk = true :=
  ⟨(C9_empty_channel_names (α := String) 5 (some ("0.5", "0.5"))).1,
   (C9_empty_channel_names (α := String) 5 (some ("0.5", "0.5"))).2.1⟩

/-- C8: whenever a calibration pair (y_um, x_um) is supplied and the
build succeeds, the record holds PhysicalSizeX = str(x_um) and
PhysicalSizeY = str(y_um) with both units fixed to "µm"; and every
successfully built record carries the fixed creator identifier. -/
theorem C8_physical_size_and_creator {α : Type} [ToString α] (numChannels : Nat)
    (names : Option (List String)) (y x : α)
    (hok : (_make_ome_metadata numChannels names (some (y, x))).isOk = true) :
    ((getMd (_make_ome_metadata numChannels names (some (y, x)))).physicalSizeX
        = some (toString x)
      ∧ (getMd (_make_ome_metadata numChannels names (some (y, x)))).physicalSizeXUnit
        = some "µm"
      ∧ (getMd (_make_ome_metadata numChannels names (some (y, x)))).physicalSizeY
        = some (toString y)
      ∧ (getMd (_make_ome_metadata numChannels names (some (y, x)))).physicalSizeYUnit
        = some "µm")
    ∧ (∀ (names2 : Option (List String)) (cal2 : Option (α × α)),
        (_make_ome_metadata numChannels names2 cal2).isOk = true →
        (getMd (_make_ome_metadata numChannels names2 cal2)).creator = _creator) := by
  have hcreator : ∀ (names2 : Option (List String)) (cal2 : Option (α × α)),
      (_make_ome_metadata numChannels names2 cal2).isOk = true →
      (getMd (_make_ome_metadata numChannels names2 cal2)).creator = _creator := by
    intro names2 cal2 hok2
    rcases names2 with _ | l
    · rcases cal2 with _ | ⟨y2, x2⟩ <;> simp [_make_ome_metadata, getMd]
    · rcases cal2 with _ | ⟨y2, x2⟩ <;>
      · by_cases hemp : l.isEmpty
        · simp [_make_ome_metadata, hemp, getMd]
        · by_cases hlen : l.length = numChannels
          · simp [_make_ome_metadata, hemp, hlen, getMd]
          · simp [_make_ome_metadata, hemp, hlen, Except.isOk, Except.toBool] at hok2
  refine ⟨?_, hcreator⟩
  rcases names with _ | l
  · simp [_make_ome_metadata, getMd]
  · by_cases hemp : l.isEmpty
    · simp [_make_ome_metadata, hemp, getMd]
    · by_cases hlen : l.length = numChannels
      · simp [_make_ome_metadata, hemp, hlen, getMd]
      · simp [_make_ome_metadata, hemp, hlen, Except.isOk, Except.toBool] at hok

/-- Witness for C8: calibration ("0.25", "0.25") yields
PhysicalSizeX = "0.25" with unit "µm", and the creator string is
"zarr-ometiff". -/
theorem C8_physical_size_and_creator_witness :
    (_make_ome_metadata (α := String) 1 none (some ("0.25", "0.25"))).isOk = true
    ∧ (getMd (_make_ome_metadata (α := String) 1 none
        (some ("0.25", "0.25")))).physicalSizeX = some "0.25"
    ∧ (getMd (_make_ome_metadata (α := String) 1 none
        (some ("0.25", "0.25")))).physicalSizeXUnit = some "µm"
    ∧ (getMd (_make_ome_metadata (α := String) 1 none
        (some ("0.25", "0.25")))).creator = "zarr-ometiff" := by
  have h := C8_physical_size_and_creator (α := String) 1 none "0.25" "0.25" (by rfl)
  exact ⟨by rfl, h.1.1, h.1.2.1, h.2 none (some ("0.25", "0.25")) (by rfl)⟩

/-- Observable effects of `write_pyramidal_ome_tiff`, in program order.
`raise` is an exception escaping the function; `mkdirParents` is
`Path(pyramid_filename).parent.mkdir(parents=True, exist_ok=True)`;
`openWriter` is `tifffile.TiffWriter(pyramid_filename, ome=True,
bigtiff=True)`, which creates the destination file and immediately
writes the TIFF header bytes; `writeIfd h w subifds reduced tileH tileW`
is one `tif.write(...)` call with the given level shape, `subifds=`
count (level 0 only), `subfiletype=1` reduced-resolution flag
(levels ≥ 1 only) and tile geometry.  Tile pixel data is produced
lazily by `_tiles_generator` and consumed inside the external tifffile
library, so it is not part of the trace. -/
inductive WEvent where
  | raise (e : ErrKind)
  | mkdirParents
  | openWriter
  | writeIfd (h w : Nat) (subifds : Option Nat) (reduced : Bool) (tileH tileW : Nat)
deriving DecidableEq, Repr

/-- Embedding of `write_pyramidal_ome_tiff` as its trace of observable
effects.  The function builds the OME metadata first (the only failable
step: the channel-name assert), then creates the output directory, opens
the TIFF writer, writes the full-resolution IFD with
`subifds = max_levels - 1`, and then for each level 1 .. max_levels-1
writes one reduced-resolution IFD of shape
(ceil(H/2^level), ceil(W/2^level)).  Nothing in the function reads
`tile_size` before the first `tif.write` call, and no parameter
validation of any kind is performed. -/
def write_pyramidal_ome_tiff {α : Type} [ToString α] (numChannels imageHeight imageWidth : Nat)
    (channel_names : Option (List String)) (pixel_size_um : Option (α × α))
    (tile_size : Nat) (max_levels : Nat) (downsample_method : String) : List WEvent :=
  match _make_ome_metadata numChannels channel_names pixel_size_um with
  | .error e => [.raise e]
  | .ok _ =>
    [.mkdirParents, .openWriter,
     .writeIfd imageHeight imageWidth (some (max_levels - 1)) false tile_size tile_size]
    ++ (List.range (max_levels - 1)).map (fun i =>
        .writeIfd (ceilDiv imageHeight (2 ^ (i + 1))) (ceilDiv imageWidth (2 ^ (i + 1)))
          none true tile_size tile_size)

/-- The per-level IFD records (shape, subifds declaration, reduced flag)
of a writer trace, in the order written. -/
def levelRecords (tr : List WEvent) : List (Nat × Nat × Option Nat × Bool) :=
  tr.filterMap (fun e =>
    match e with
    | .writeIfd h w s r _ _ => some (h, w, s, r)
    | _ => none)

/-- C2 counterexample: calling the writer with tile_size = 0 performs no
validation at all: the trace creates the output directory and opens the
TIFF writer on output_path (which starts writing the file) and then
hands tile size 0 to the external library; no InvalidParameter is ever
raised. -/
theorem C2_counterexample :
    write_pyramidal_ome_tiff (α := String) 1 4 4 none none 0 1 "box"
      = [.mkdirParents, .openWriter, .writeIfd 4 4 (some 0) false 0 0]
    ∧ WEvent.raise .invalidParameter
        ∉ write_pyramidal_ome_tiff (α := String) 1 4 4 none none 0 1 "box" := by
  refine ⟨rfl, by decide⟩

/-- C2 amended: `write` never raises InvalidParameter for any input, and
whenever the metadata build succeeds (the only internal check) a
tile_size = 0 call still opens the destination file as its second
effect, before tile_size is ever examined — so the failure, arising
later inside the external TIFF library, comes after bytes were written
to output_path. -/
theorem C2_no_tile_size_validation {α : Type} [ToString α]
    (numChannels imageHeight imageWidth : Nat) (names : Option (List String))
    (cal : Option (α × α)) (tile_size max_levels : Nat) (m : String) :
    WEvent.raise .invalidParameter
      ∉ write_pyramidal_ome_tiff numChannels imageHeight imageWidth names cal
          tile_size max_levels m
    ∧ ((_make_ome_metadata numChannels names cal).isOk = true →
        (write_pyramidal_ome_tiff numChannels imageHeight imageWidth names cal
          0 max_levels m).take 2 = [.mkdirParents, .openWriter]) := by
  have herr : ∀ e, _make_ome_metadata numChannels names cal = .error e →
      e = .channelCountMismatch := by
    intro e hmd
    rcases names with _ | l
    · rcases cal with _ | ⟨y, x⟩ <;> simp [_make_ome_metadata] at hmd
    · rcases cal with _ | ⟨y, x⟩ <;>
      · by_cases hemp : l.isEmpty <;> by_cases hlen : l.length = numChannels <;>
          simp [_make_ome_metadata, hemp, hlen] at hmd <;> exact hmd.symm
  constructor
  · cases hmd : _make_ome_metadata numChannels names cal with
    | error e =>
      have he := herr e hmd
      subst he
      simp [write_pyramidal_ome_tiff, hmd]
    | ok md =>
      simp [write_pyramidal_ome_tiff, hmd]
  · intro hok
    obtain ⟨md, hmd⟩ : ∃ md, _make_ome_metadata numChannels names cal = .ok md := by
      cases h : _make_ome_metadata numChannels names cal with
      | error e => rw [h] at hok; cases hok
      | ok md => exact ⟨md, rfl⟩
    simp [write_pyramidal_ome_tiff, hmd]

/-- Witness for C2 amended at a concrete valid metadata input: the first
two effects with tile_size = 0 are directory creation and opening the
output file. -/
theorem C2_no_tile_size_validation_witness :
    (_make_ome_metadata (α := String) 1 none none).isOk = true
    ∧ (write_pyramidal_ome_tiff (α := String) 1 4 4 none none 0 3 "box").take 2
        = [.mkdirParents, .openWriter] :=
  ⟨by rfl, (C2_no_tile_size_validation (α := String) 1 4 4 none none 0 3 "box").2 (by rfl)⟩

/-- C6: for every stack of shape (H0, W0) and every level_count ≥ 1
whose metadata build succeeds, the writer emits exactly level_count IFDs
with no clamping: the k-th has shape (ceil(H0/2^k), ceil(W0/2^k)), the
first (level 0) declares level_count − 1 linked sub-resolution entries
and is not reduced, and every subsequent one carries the
reduced-resolution flag. -/
theorem C6_pyramid_levels {α : Type} [ToString α]
    (numChannels imageHeight imageWidth : Nat) (names : Option (List String))
    (cal : Option (α × α)) (tile_size max_levels : Nat) (m : String)
    (hn : 1 ≤ max_levels)
    (hok : (_make_ome_metadata numChannels names cal).isOk = true) :
    (levelRecords (write_pyramidal_ome_tiff numChannels imageHeight imageWidth
        names cal tile_size max_levels m)).length = max_levels
    ∧ ∀ k, k < max_levels →
        (levelRecords (write_pyramidal_ome_tiff numChannels imageHeight imageWidth
            names cal tile_size max_levels m))[k]?
          = some (ceilDiv imageHeight (2 ^ k), ceilDiv imageWidth (2 ^ k),
              (if k = 0 then some (max_levels - 1) else none), decide (0 < k)) := by
  obtain ⟨md, hmd⟩ : ∃ md, _make_ome_metadata numChannels names cal = .ok md := by
    cases h : _make_ome_metadata numChannels names cal with
    | error e => rw [h] at hok; cases hok
    | ok md => exact ⟨md, rfl⟩
  have hfm : ∀ L : List Nat, List.filterMap
      ((fun e => match e with
        | WEvent.writeIfd h w s r _ _ => some (h, w, s, r)
        | _ => none)
        ∘ fun i => WEvent.writeIfd (ceilDiv imageHeight (2 ^ (i + 1)))
            (ceilDiv imageWidth (2 ^ (i + 1))) none true tile_size tile_size) L
      = L.map (fun i => (ceilDiv imageHeight (2 ^ (i + 1)),
          ceilDiv imageWidth (2 ^ (i + 1)), none, true)) := by
    intro L
    induction L with
    | nil => rfl
    | cons a t ih => simp [List.filterMap_cons, ih, Function.comp]
  have htrace : levelRecords (write_pyramidal_ome_tiff numChannels imageHeight imageWidth
      names cal tile_size max_levels m)
      = (imageHeight, imageWidth, some (max_levels - 1), false)
        :: (List.range (max_levels - 1)).map (fun i =>
            (ceilDiv imageHeight (2 ^ (i + 1)), ceilDiv imageWidth (2 ^ (i + 1)),
              none, true)) := by
    simp only [write_pyramidal_ome_tiff, hmd, levelRecords, List.filterMap_append,
      List.filterMap_cons, List.filterMap_map, List.filterMap_nil]
    rw [hfm]
    rfl
  rw [htrace]
  constructor
  · simp
    omega
  · intro k hk
    cases k with
    | zero =>
      simp [ceilDiv_one]
    | succ j =>
      have hj : j < max_levels - 1 := by omega
      simp [List.getElem?_cons_succ, List.getElem?_map, List.getElem?_range, hj]

/-- Witness for C6, matching the spec's end-to-end example: a 2050 × 2050
plane with level_count = 3 yields level shapes (2050, 2050),
(1025, 1025), (513, 513), the primary entry declaring 2 sub-resolution
entries and levels 1 and 2 flagged reduced. -/
theorem C6_pyramid_levels_witness :
    (1 : Nat) ≤ 3
    ∧ (_make_ome_metadata (α := String) 1 none none).isOk = true
    ∧ (levelRecords (write_pyramidal_ome_tiff (α := String) 1 2050 2050
        none none 1024 3 "box")).length = 3
    ∧ (levelRecords (write_pyramidal_ome_tiff (α := String) 1 2050 2050
        none none 1024 3 "box"))[0]? = some (2050, 2050, some 2, false)
    ∧ (levelRecords (write_pyramidal_ome_tiff (α := String) 1 2050 2050
        none none 1024 3 "box"))[1]? = some (1025, 1025, none, true)
    ∧ (levelRecords (write_pyramidal_ome_tiff (α := String) 1 2050 2050
        none none 1024 3 "box"))[2]? = some (513, 513, none, true) := by
  have h := C6_pyramid_levels (α := String) 1 2050 2050 none none 1024 3 "box"
    (by decide) (by rfl)
  refine ⟨by decide, by rfl, h.1, ?_, ?_, ?_⟩
  · exact (h.2 0 (by decide)).trans (by decide)
  · exact (h.2 1 (by decide)).trans (by decide)
  · exact (h.2 2 (by decide)).trans (by decide)

/-- Python `range(start, stop, step)` for a positive step: the values
`start, start+step, ...` strictly below `stop`. -/
def pyRangeStep (start stop step : Nat) : List Nat :=
  if h : 0 < step ∧ start < stop then
    start :: pyRangeStep (start + step) stop step
  else []
termination_by stop - start
decreasing_by omega

/-- The numpy sub-block `img[y:y+th, x:x+tw]`: clipped at the plane
boundary (slice semantics), never padded.  The `.copy()` in the source
has no observable effect in a pure model. -/
def subPlane {α : Type} (img : Plane α) (y x th tw : Nat) : Plane α :=
  ⟨min th (img.h - y), min tw (img.w - x), fun i j => img.pix (y + i) (x + j)⟩

/-- The tile loop of `_tiles_generator` for one (already downsampled)
plane: for y in range(0, H, tile_height), for x in range(0, W,
tile_width), yield img[y:y+tile_height, x:x+tile_width].  Each element
records the loop position (y, x) the tile was cut at, which is also the
position the OME-TIFF writer places it back at. -/
def planeTiles {α : Type} (img : Plane α) (tile_height tile_width : Nat) :
    List (Nat × Nat × Plane α) :=
  (pyRangeStep 0 img.h tile_height).flatMap (fun y =>
    (pyRangeStep 0 img.w tile_width).map (fun x =>
      (y, x, subPlane img y x tile_height tile_width)))

/-- Tile `e` (position, plane) covers absolute pixel (i, j). -/
def tileCovers {α : Type} (e : Nat × Nat × Plane α) (i j : Nat) : Prop :=
  e.1 ≤ i ∧ i < e.1 + e.2.2.h ∧ e.2.1 ≤ j ∧ j < e.2.1 + e.2.2.w

instance {α : Type} (e : Nat × Nat × Plane α) (i j : Nat) : Decidable (tileCovers e i j) := by
  unfold tileCovers
  exact inferInstance

/-- Place one tile at its recorded position over a partial canvas. -/
def pasteTile {α : Type} (e : Nat × Nat × Plane α) (acc : Nat → Nat → Option α) :
    Nat → Nat → Option α :=
  fun i j =>
    if tileCovers e i j then some (e.2.2.pix (i - e.1) (j - e.2.1)) else acc i j

/-- Paste every yielded tile back at its recorded position. -/
def reconstruct {α : Type} (ts : List (Nat × Nat × Plane α)) : Nat → Nat → Option α :=
  ts.foldr pasteTile (fun _ _ => none)

lemma pyRangeStep_eq_map (step : Nat) (hs : 0 < step) :
    ∀ (n stop start : Nat), stop - start = n →
      pyRangeStep start stop step
        = (List.range (ceilDiv n step)).map (fun i => start + step * i) := by
  intro n
  induction n using Nat.strong_induction_on with
  | _ n ih =>
    intro stop start hn
    rw [pyRangeStep]
    by_cases hlt : start < stop
    · rw [dif_pos ⟨hs, hlt⟩]
      rw [ih (stop - (start + step)) (by omega) stop (start + step) rfl]
      have hcd : ceilDiv n step = ceilDiv (stop - (start + step)) step + 1 := by
        have hm : stop - (start + step) = n - step := by omega
        rw [hm]
        rcases Nat.le_total n step with hle | hge
        · have h1 : n - step = 0 := by omega
          rw [h1]
          have h2 : ceilDiv 0 step = 0 := by
            rw [ceilDiv]
            exact Nat.div_eq_of_lt (by omega)
          rw [h2, ceilDiv]
          exact Nat.div_eq_of_lt_le (by omega) (by omega)
        · have h1 : n + step - 1 = (n - step + step - 1) + step := by omega
          rw [ceilDiv, ceilDiv, h1, Nat.add_div_right _ hs]
      rw [hcd, List.range_succ_eq_map, List.map_cons, List.map_map]
      simp only [Nat.mul_zero, Nat.add_zero]
      congr 1
      apply List.map_congr_left
      intro i _
      simp only [Function.comp_apply, Nat.mul_succ]
      omega
    · rw [dif_neg (fun hc => hlt hc.2)]
      have h0 : n = 0 := by omega
      subst h0
      have h2 : ceilDiv 0 step = 0 := by
        rw [ceilDiv]
        exact Nat.div_eq_of_lt (by omega)
      rw [h2]
      rfl

lemma planeTiles_eq {α : Type} (img : Plane α) (th tw : Nat)
    (hth : 0 < th) (htw : 0 < tw) :
    planeTiles img th tw
      = (List.range (ceilDiv img.h th)).flatMap (fun a =>
          (List.range (ceilDiv img.w tw)).map (fun b =>
            (th * a, tw * b, subPlane img (th * a) (tw * b) th tw))) := by
  unfold planeTiles
  rw [pyRangeStep_eq_map th hth img.h img.h 0 (by omega),
    pyRangeStep_eq_map tw htw img.w img.w 0 (by omega)]
  simp only [List.flatMap_map, List.map_map, Nat.zero_add]
  rfl

lemma flatMap_range_map_length {β : Type} (n m : Nat) (g : Nat → Nat → β) :
    ((List.range n).flatMap (fun a => (List.range m).map (g a))).length = n * m := by
  induction n with
  | zero => simp
  | succ k ih =>
    rw [List.range_succ, List.flatMap_append]
    simp [ih, Nat.succ_mul]

lemma reconstruct_covers {α : Type} (i j : Nat) (v : α) :
    ∀ ts : List (Nat × Nat × Plane α),
      (∀ e ∈ ts, tileCovers e i j → e.2.2.pix (i - e.1) (j - e.2.1) = v) →
      (∃ e ∈ ts, tileCovers e i j) →
      reconstruct ts i j = some v := by
  intro ts
  induction ts with
  | nil =>
    rintro _ ⟨e, he, _⟩
    cases he
  | cons a t ih =>
    intro hall hex
    show pasteTile a (reconstruct t) i j = some v
    by_cases hc : tileCovers a i j
    · simp [pasteTile, hc, hall a (List.mem_cons_self a t) hc]
    · simp only [pasteTile, if_neg hc]
      apply ih
      · intro e he hce
        exact hall e (List.mem_cons_of_mem a he) hce
      · rcases hex with ⟨e, he, hce⟩
        rcases List.mem_cons.mp he with rfl | he2
        · exact absurd hce hc
        · exact ⟨e, he2, hce⟩

lemma div_lt_ceilDiv (i H s : Nat) (hi : i < H) (hs : 0 < s) :
    i / s < ceilDiv H s := by
  have hH : 0 < H := by omega
  rw [ceilDiv_pos_eq H s hs hH]
  have := Nat.div_le_div_right (c := s) (by omega : i ≤ H - 1)
  omega

/-- C3: for every plane and positive tile sizes, the tile loop yields
exactly ceil(H/th) * ceil(W/tw) tiles; the sequence is exactly the
row-major scan (y outer over rows, x inner over columns) of the clipped,
unpadded sub-blocks img[y:y+th, x:x+tw]; and pasting every yielded tile
back at its recorded (y, x) position reconstructs every pixel of the
original plane. -/
theorem C3_tile_sequence {α : Type} (img : Plane α) (th tw : Nat)
    (hth : 0 < th) (htw : 0 < tw) :
    (planeTiles img th tw).length = ceilDiv img.h th * ceilDiv img.w tw
    ∧ planeTiles img th tw
        = (List.range (ceilDiv img.h th)).flatMap (fun a =>
            (List.range (ceilDiv img.w tw)).map (fun b =>
              (th * a, tw * b, subPlane img (th * a) (tw * b) th tw)))
    ∧ ∀ i j, i < img.h → j < img.w →
        reconstruct (planeTiles img th tw) i j = some (img.pix i j) := by
  have heq := planeTiles_eq img th tw hth htw
  refine ⟨?_, heq, ?_⟩
  · rw [heq]
    exact flatMap_range_map_length _ _ _
  · intro i j hi hj
    apply reconstruct_covers
    · intro e he hce
      rw [heq] at he
      rcases List.mem_flatMap.mp he with ⟨a, _, he2⟩
      rcases List.mem_map.mp he2 with ⟨b, _, rfl⟩
      obtain ⟨h1, h2, h3, h4⟩ := hce
      have h1n : th * a ≤ i := h1
      have h3n : tw * b ≤ j := h3
      show img.pix (th * a + (i - th * a)) (tw * b + (j - tw * b)) = img.pix i j
      have e1 : th * a + (i - th * a) = i := by omega
      have e2 : tw * b + (j - tw * b) = j := by omega
      rw [e1, e2]
    · rw [heq]
      refine ⟨(th * (i / th), tw * (j / tw),
        subPlane img (th * (i / th)) (tw * (j / tw)) th tw), ?_, ?_⟩
      · exact List.mem_flatMap.mpr ⟨i / th,
          List.mem_range.mpr (div_lt_ceilDiv i img.h th hi hth),
          List.mem_map.mpr ⟨j / tw,
            List.mem_range.mpr (div_lt_ceilDiv j img.w tw hj htw), rfl⟩⟩
      · have hdm1 := Nat.div_add_mod i th
        have hmod1 : i % th < th := Nat.mod_lt i hth
        have hdm2 := Nat.div_add_mod j tw
        have hmod2 : j % tw < tw := Nat.mod_lt j htw
        refine ⟨?_, ?_, ?_, ?_⟩
        · show th * (i / th) ≤ i
          omega
        · show i < th * (i / th) + min th (img.h - th * (i / th))
          rcases Nat.le_total th (img.h - th * (i / th)) with hmin | hmin
          · rw [Nat.min_eq_left hmin]
            omega
          · rw [Nat.min_eq_right hmin]
            omega
        · show tw * (j / tw) ≤ j
          omega
        · show j < tw * (j / tw) + min tw (img.w - tw * (j / tw))
          rcases Nat.le_total tw (img.w - tw * (j / tw)) with hmin | hmin
          · rw [Nat.min_eq_left hmin]
            omega
          · rw [Nat.min_eq_right hmin]
            omega

/-- Small concrete 3 × 3 test plane, pixel (i,j) holds 3*i+j. -/
def testPlane3 : Plane Nat := ⟨3, 3, fun i j => 3 * i + j⟩

/-- Witness for C3: tiling a 3 × 3 plane with 2 × 2 tiles yields
ceil(3/2)² = 4 tiles, and pasting them back recovers pixel (1, 2). -/
theorem C3_tile_sequence_witness :
    (0 : Nat) < 2
    ∧ (planeTiles testPlane3 2 2).length = 4
    ∧ reconstruct (planeTiles testPlane3 2 2) 1 2 = some 5 := by
  have h := C3_tile_sequence testPlane3 2 2 (by decide) (by decide)
  refine ⟨by decide, ?_, ?_⟩
  · exact h.1.trans (by decide)
  · exact (h.2.2 1 2 (by decide) (by decide)).trans (by decide)

end ZarrOme
